import Mathlib

/- A formal model of libavformat/async.c, the asynchronous read-ahead
buffering layer.  Pure fragments of the C code are translated into Lean
functions; the interaction of the foreground thread with the background
worker is captured by passing explicit traces of observations (the shared
state the foreground sees at each top-of-loop check / wake-up) and by a
step function for one iteration of the worker loop. -/

namespace Async

/-- BUFFER_CAPACITY from async.c, line 45: 4 MiB ring capacity. -/
def BUFFER_CAPACITY : Nat := 4 * 1024 * 1024

/-- SHORT_SEEK_THRESHOLD from async.c, line 46: 256 KiB fast-seek window. -/
def SHORT_SEEK_THRESHOLD : Nat := 256 * 1024

/-- AVERROR_EXIT = FFERRTAG of the letters E,X,I,T (the aborted sentinel). -/
def AVERROR_EXIT : Int := -1414092869

/-- AVERROR_EOF = FFERRTAG of the letters E,O,F,space (the end-of-file sentinel). -/
def AVERROR_EOF : Int := -541478725

/-- AVERROR(EINVAL) = -22 (the invalid-argument sentinel). -/
def AVERROR_EINVAL : Int := -22

/-- whence value SEEK_SET. -/
def SEEK_SET : Nat := 0

/-- whence value SEEK_CUR. -/
def SEEK_CUR : Nat := 1

/-- whence value AVSEEK_SIZE (0x10000). -/
def AVSEEK_SIZE : Nat := 65536

/-- async_interrupt_callback (async.c lines 74-87).  `cb` is the result of the
external interrupt callback when one is installed (`none` when
`c->interrupt_callback.callback` is NULL); `ab` is `c->abort_request`.
The C body: if a callback is installed, call it; when it returns 0, return 0
immediately; otherwise fall through and return `c->abort_request`. -/
def async_interrupt_callback (cb : Option Int) (ab : Int) : Int :=
  match cb with
  | some r => if r = 0 then 0 else ab
  | none => ab

/-- One observation of the shared state made by `async_read_internal` at the
top of one iteration of its drain loop: the external-callback result and
abort flag that feed `async_interrupt_callback`, the bytes the worker
appended to the fifo since the previous observation (while the foreground
held no lock, i.e. before the call or during the preceding cond wait), and
the value of `io_eof_reached`. -/
structure Obs where
  cbRes : Option Int
  abort : Int
  arrived : List Nat
  eof : Bool
deriving DecidableEq

/-- Which break left the drain loop of `async_read_internal`:
`interrupted` = the `async_interrupt_callback` check at the top,
`copied` = the break after moving bytes (`to_read <= 0 || !read_complete`),
`eofHit` = the `io_eof_reached` branch,
`noIter` = the `while (to_read > 0)` condition was false on entry. -/
inductive ExitCause where
  | interrupted
  | copied
  | eofHit
  | noIter
deriving DecidableEq

/-- Result of a run of the drain loop: the C return value `ret`, the final
`c->logical_pos`, the remaining fifo contents, the bytes moved out of the
fifo by this call (copied to `dest`, or discarded in no-copy mode), and
which break ended the loop. -/
structure ReadResult where
  ret : Int
  logical_pos : Nat
  fifo : List Nat
  delivered : List Nat
  cause : ExitCause
deriving DecidableEq

/-- The drain loop of async_read_internal (async.c lines 252-277), one
observation consumed per iteration.  `none` means the trace ended with the
loop still blocked in `pthread_cond_wait` (the call has not returned).
Arguments mirror the C locals: `size` and `to_read` with
`ret = size - to_read`, `read_complete` selects the complete-read mode, and
`dlv` accumulates the bytes moved (ghost state for the statements below). -/
def readLoop (obs : List Obs) (fifo : List Nat) (lp size toRead : Nat)
    (rc : Bool) (ret : Int) (dlv : List Nat) : Option ReadResult :=
  if toRead = 0 then some ⟨ret, lp, fifo, dlv, .noIter⟩
  else
    match obs with
    | [] => none
    | ob :: rest =>
      let fifo1 := fifo ++ ob.arrived
      if async_interrupt_callback ob.cbRes ob.abort ≠ 0 then
        some ⟨AVERROR_EXIT, lp, fifo1, dlv, .interrupted⟩
      else
        let toCopy := min toRead fifo1.length
        if 0 < toCopy then
          let lp1 := lp + toCopy
          let toRead1 := toRead - toCopy
          let ret1 : Int := (size : Int) - (toRead1 : Int)
          let dlv1 := dlv ++ fifo1.take toCopy
          if toRead1 = 0 ∨ rc = false then
            some ⟨ret1, lp1, fifo1.drop toCopy, dlv1, .copied⟩
          else
            readLoop rest (fifo1.drop toCopy) lp1 size toRead1 rc ret1 dlv1
        else if ob.eof then
          some ⟨if ret ≤ 0 then AVERROR_EOF else ret, lp, fifo1, dlv, .eofHit⟩
        else
          readLoop rest fifo1 lp size toRead rc ret dlv

/-- async_read_internal (async.c lines 242-283): enters the drain loop with
`to_read = size`, `ret = 0` and nothing delivered yet. -/
def async_read_internal (obs : List Obs) (fifo : List Nat) (lp size : Nat)
    (rc : Bool) : Option ReadResult :=
  readLoop obs fifo lp size size rc 0 []

/-- async_read (async.c lines 285-288): an ordinary read,
`async_read_internal` with `read_complete = 0` (and a copying destination). -/
def async_read (obs : List Obs) (fifo : List Nat) (lp size : Nat) :
    Option ReadResult :=
  async_read_internal obs fifo lp size false

/-- The mutable fields of `struct Context` (async.c lines 48-72) that the
worker loop touches.  `logical_pos` and `logical_size` are C `size_t`
values, kept as `Nat`; `abort_request` is the C int flag; the fifo contents
stand for the bytes currently buffered in `c->fifo`. -/
structure AsyncState where
  seek_request : Bool
  seek_pos : Nat
  seek_whence : Nat
  seek_completed : Bool
  seek_ret : Int
  io_error : Int
  io_eof_reached : Bool
  logical_pos : Nat
  logical_size : Nat
  fifo : List Nat
  abort_request : Int
deriving DecidableEq

/-- What one iteration of the worker loop did:
`exit` = broke out of the loop at the cancellation check,
`seekServiced` = serviced a pending seek request (no fill this round),
`wait` = signalled the foreground and blocked on `cond_wakeup_background`,
`fill n` = wrote `n` bytes pulled from the source into the fifo. -/
inductive WorkerAct where
  | exit
  | seekServiced
  | wait
  | fill (n : Nat)
deriving DecidableEq

/-- Whether the iteration signals `cond_wakeup_main`: every branch except
breaking out at the cancellation check does. -/
def WorkerAct.signalsMain : WorkerAct → Bool
  | .exit => false
  | _ => true

/-- The environment of one worker iteration: the external-callback result
feeding `async_interrupt_callback`, the value `ffurl_seek` on the inner
stream would return, and what the inner stream offers to the fill.
`chunkErr = some e` (with `e` negative) means the very first inner read
fails with `e` and nothing is written; otherwise `chunk` is the byte
sequence the source delivers, truncated by the fill to its request. -/
structure WorkerEnv where
  cbRes : Option Int
  innerSeekRet : Int
  chunk : List Nat
  chunkErr : Option Int
deriving DecidableEq

/-- Modelled from the spec: the ring-buffer bulk fill
(`av_fifo_generic_write` with `ffurl_read` as the pull callback, whose
implementation lives outside src/).  Per the RingBuffer contract it writes
up to `toCopy` bytes pulled from the source and returns the count written,
or returns a negative error (writing nothing) when the source read fails. -/
def fifo_write_from (env : WorkerEnv) (toCopy : Nat) : List Nat × Int :=
  match env.chunkErr with
  | some e => ([], e)
  | none =>
    let written := env.chunk.take toCopy
    (written, (written.length : Int))

/-- One iteration of the worker loop async_buffer_task (async.c lines
96-149): cancellation check, then pending-seek service, then the
full/EOF wait, otherwise a bounded fill of `min 4096 fifo_space` bytes. -/
def workerStep (s : AsyncState) (env : WorkerEnv) : AsyncState × WorkerAct :=
  if async_interrupt_callback env.cbRes s.abort_request ≠ 0 then
    ({s with io_eof_reached := true, io_error := AVERROR_EXIT}, .exit)
  else if s.seek_request then
    let ret := env.innerSeekRet
    let s1 := if ret < 0 then {s with io_eof_reached := true, io_error := ret}
              else {s with io_eof_reached := false, io_error := 0}
    ({s1 with seek_completed := true, seek_ret := ret, seek_request := false,
              fifo := []}, .seekServiced)
  else
    let space := BUFFER_CAPACITY - s.fifo.length
    if s.io_eof_reached ∨ space = 0 then (s, .wait)
    else
      let toCopy := min 4096 space
      let wr := fifo_write_from env toCopy
      let s1 := {s with fifo := s.fifo ++ wr.1}
      let s2 := if wr.2 ≤ 0 then
                  {s1 with io_eof_reached := true,
                           io_error := if wr.2 < 0 then wr.2 else s1.io_error}
                else s1
      (s2, .fill wr.1.length)

/-- One observation made by the slow-path wait loop of async_seek (async.c
lines 345-358) at the top of one iteration: the inputs of
`async_interrupt_callback` plus the `seek_completed` flag and `seek_ret`
value the worker may have published. -/
structure SlowObs where
  cbRes : Option Int
  abort : Int
  completed : Bool
  ret : Int
deriving DecidableEq

/-- The slow-path wait loop of async_seek (async.c lines 345-358).  Returns
the C return value together with the final `logical_pos` (`seek_ret` is
adopted as the new `logical_pos` exactly when it is `>= 0`); `none` means
the trace ended with the loop still blocked in `pthread_cond_wait`. -/
def seekWaitLoop : List SlowObs → Nat → Option (Int × Nat)
  | [], _ => none
  | ob :: rest, lp =>
    if async_interrupt_callback ob.cbRes ob.abort ≠ 0 then
      some (AVERROR_EXIT, lp)
    else if ob.completed then
      some (ob.ret, if 0 ≤ ob.ret then ob.ret.toNat else lp)
    else seekWaitLoop rest lp

/-- The classification an async_seek call reaches in its if-chain (async.c
lines 302-335): the AVSEEK_SIZE query, an invalid-argument return, the
no-op current-position return, the fast path discarding `dist` bytes, or
the slow path posting a seek request for `target`. -/
inductive SeekClass where
  | sizeQuery
  | einval
  | current
  | fast (dist : Nat)
  | slow (target : Nat)
deriving DecidableEq

/-- The if-chain of async_seek (async.c lines 302-335).  `lp` and `lsz` are
the `size_t` values of `logical_pos` and `logical_size`; hence the C test
`c->logical_size <= 0` holds exactly when `lsz = 0`, and
`new_logical_pos > c->logical_size` compares in the unsigned domain. -/
def async_seek_classify (lp lsz fifoSize : Nat) (pos : Int) (whence : Nat) :
    SeekClass :=
  if whence = AVSEEK_SIZE then .sizeQuery
  else if whence = SEEK_CUR ∨ whence = SEEK_SET then
    let nlp : Int := if whence = SEEK_CUR then pos + lp else pos
    if nlp < 0 then .einval
    else if nlp = lp then .current
    else if (lp : Int) < nlp ∧ nlp < (lp : Int) + fifoSize + SHORT_SEEK_THRESHOLD
    then .fast (nlp - lp).toNat
    else if lsz = 0 then .einval
    else if lsz < nlp.toNat then .einval
    else .slow nlp.toNat
  else .einval

/-- The C conversion storing the `int64_t` result of `ffurl_size` into the
`size_t` field `c->logical_size` (async.c line 176): reduction mod 2^64. -/
def storeLogicalSize (r : Int) : Nat :=
  (r % (2 ^ 64 : Int)).toNat

/-- The C conversion returning the `size_t` field `c->logical_size` as the
`int64_t` result of async_seek's AVSEEK_SIZE branch (async.c line 304). -/
def int64OfSizeT (n : Nat) : Int :=
  if n < 2 ^ 63 then (n : Int) else (n : Int) - 2 ^ 64

/-- Result of an async_seek call: the returned value, the final
`logical_pos`, the fifo as the foreground leaves it, and the slow-path seek
request posted to the worker, if any (`some target` records that
`seek_request = 1` with `seek_pos = target` was written). -/
structure SeekResult where
  ret : Int
  logical_pos : Nat
  fifo : List Nat
  posted : Option Nat
deriving DecidableEq

/-- async_seek (async.c lines 294-363).  `obs` drives the internal
discarding read of the fast path, `sObs` drives the slow-path wait loop. -/
def async_seek (obs : List Obs) (sObs : List SlowObs) (lp lsz : Nat)
    (fifo : List Nat) (pos : Int) (whence : Nat) : Option SeekResult :=
  match async_seek_classify lp lsz fifo.length pos whence with
  | .sizeQuery => some ⟨int64OfSizeT lsz, lp, fifo, none⟩
  | .einval => some ⟨AVERROR_EINVAL, lp, fifo, none⟩
  | .current => some ⟨(lp : Int), lp, fifo, none⟩
  | .fast dist =>
    match readLoop obs fifo lp dist dist true 0 [] with
    | none => none
    | some r => some ⟨(r.logical_pos : Int), r.logical_pos, r.fifo, none⟩
  | .slow target =>
    match seekWaitLoop sObs lp with
    | none => none
    | some rl => some ⟨rl.1, rl.2, fifo, some target⟩

/-- Characterization of a terminating run of the drain loop, relative to the
loop invariant of async_read_internal: `ret = size - to_read` and the bytes
delivered so far number `size - to_read`.  Gives the bookkeeping facts each
exit cause guarantees. -/
theorem readLoop_char (obs : List Obs) : ∀ fifo lp toRead ret dlv res,
    ∀ size : Nat, ∀ rc : Bool,
    toRead ≤ size →
    ret = (size : Int) - (toRead : Int) →
    dlv.length = size - toRead →
    readLoop obs fifo lp size toRead rc ret dlv = some res →
    res.delivered.length ≤ size ∧
    res.logical_pos + dlv.length = lp + res.delivered.length ∧
    (res.cause = .noIter →
      toRead = 0 ∧ res.delivered = dlv ∧ res.ret = (res.delivered.length : Int)) ∧
    (res.cause = .interrupted →
      res.ret = AVERROR_EXIT ∧ res.delivered.length < size) ∧
    (res.cause = .copied →
      res.ret = (res.delivered.length : Int) ∧ dlv.length < res.delivered.length ∧
      (rc = true → res.delivered.length = size)) ∧
    (res.cause = .eofHit →
      res.delivered.length < size ∧
      (res.delivered.length = 0 → res.ret = AVERROR_EOF) ∧
      (0 < res.delivered.length → res.ret = (res.delivered.length : Int))) ∧
    (rc = false → res.cause ≠ .copied → res.delivered = dlv) := by
  induction obs with
  | nil =>
    intro fifo lp toRead ret dlv res size rc hts hret hdlv hrun
    rw [readLoop] at hrun
    by_cases htr : toRead = 0
    · rw [if_pos htr] at hrun
      injection hrun with h
      subst h
      refine ⟨by dsimp only <;> omega, by dsimp only <;> omega, ?_, by simp,
        by simp, by simp, fun _ _ => rfl⟩
      intro _
      exact ⟨htr, rfl, by dsimp only <;> omega⟩
    · rw [if_neg htr] at hrun
      exact Option.noConfusion hrun
  | cons ob rest ih =>
    intro fifo lp toRead ret dlv res size rc hts hret hdlv hrun
    rw [readLoop] at hrun
    by_cases htr : toRead = 0
    · rw [if_pos htr] at hrun
      injection hrun with h
      subst h
      refine ⟨by dsimp only <;> omega, by dsimp only <;> omega, ?_, by simp,
        by simp, by simp, fun _ _ => rfl⟩
      intro _
      exact ⟨htr, rfl, by dsimp only <;> omega⟩
    · rw [if_neg htr] at hrun
      simp only [] at hrun
      by_cases hint : async_interrupt_callback ob.cbRes ob.abort ≠ 0
      · rw [if_pos hint] at hrun
        injection hrun with h
        subst h
        refine ⟨by dsimp only <;> omega, by dsimp only <;> omega, by simp, ?_,
          by simp, by simp, fun _ _ => rfl⟩
        intro _
        exact ⟨rfl, by dsimp only <;> omega⟩
      · rw [if_neg hint] at hrun
        set fifo1 := fifo ++ ob.arrived with hfifo1
        set toCopy := min toRead fifo1.length with htc
        have htclen : (fifo1.take toCopy).length = toCopy := by
          simp [htc, List.length_take]
        have hlen1 : (dlv ++ fifo1.take toCopy).length = dlv.length + toCopy := by
          simp [List.length_append, htclen]
        have htcle : toCopy ≤ toRead := by omega
        by_cases hcp : 0 < toCopy
        · rw [if_pos hcp] at hrun
          by_cases hstop : toRead - toCopy = 0 ∨ rc = false
          · rw [if_pos hstop] at hrun
            injection hrun with h
            subst h
            refine ⟨by dsimp only <;> omega, by dsimp only <;> omega, by simp,
              by simp, ?_, by simp, ?_⟩
            · intro _
              dsimp only
              refine ⟨by omega, by omega, ?_⟩
              intro hrc
              rcases hstop with h0 | hfalse
              · omega
              · rw [hrc] at hfalse
                exact Bool.noConfusion hfalse
            · intro _ hnc
              exact absurd rfl hnc
          · rw [if_neg hstop] at hrun
            push_neg at hstop
            obtain ⟨h0, hrc⟩ := hstop
            have hrct : rc = true := by
              revert hrc
              cases rc <;> simp
            obtain ⟨hA, hB, hC, hD, hE, hF, hG⟩ :=
              ih (fifo1.drop toCopy) (lp + toCopy) (toRead - toCopy)
                ((size : Int) - ((toRead - toCopy : Nat) : Int))
                (dlv ++ fifo1.take toCopy) res size rc
                (by omega) rfl (by rw [hlen1]; omega) hrun
            refine ⟨hA, by omega, ?_, hD, ?_, hF, ?_⟩
            · intro hnc
              obtain ⟨ht0, _⟩ := hC hnc
              omega
            · intro hcc
              obtain ⟨he1, he2, he3⟩ := hE hcc
              exact ⟨he1, by omega, he3⟩
            · intro hf _
              rw [hrct] at hf
              exact Bool.noConfusion hf
        · rw [if_neg hcp] at hrun
          by_cases heof : ob.eof
          · rw [if_pos heof] at hrun
            injection hrun with h
            subst h
            refine ⟨by dsimp only <;> omega, by dsimp only <;> omega, by simp,
              by simp, by simp, ?_, fun _ _ => rfl⟩
            intro _
            dsimp only
            refine ⟨by omega, ?_, ?_⟩
            · intro hd0
              have hr0 : ret ≤ 0 := by omega
              simp [hr0]
            · intro hdpos
              have hr0 : ¬ ret ≤ 0 := by omega
              simp [hr0] <;> omega
          · rw [if_neg heof] at hrun
            exact ih fifo1 lp toRead ret dlv res size rc hts hret hdlv hrun

/-- The slow-path wait loop on a trace of uneventful wake-ups followed by a
completion observation: it returns the published `seek_ret`, adopting it as
the new `logical_pos` exactly when it is non-negative. -/
theorem seekWaitLoop_completes (pre : List SlowObs) :
    ∀ (ob : SlowObs) (rest : List SlowObs) (lp : Nat),
    (∀ x ∈ pre, async_interrupt_callback x.cbRes x.abort = 0 ∧ x.completed = false) →
    async_interrupt_callback ob.cbRes ob.abort = 0 →
    ob.completed = true →
    seekWaitLoop (pre ++ ob :: rest) lp =
      some (ob.ret, if 0 ≤ ob.ret then ob.ret.toNat else lp) := by
  induction pre with
  | nil =>
    intro ob rest lp _ hint hcmp
    simp [seekWaitLoop, hint, hcmp]
  | cons x xs ih =>
    intro ob rest lp hpre hint hcmp
    have hx := hpre x (List.mem_cons_self x xs)
    rw [List.cons_append]
    have e : seekWaitLoop (x :: (xs ++ ob :: rest)) lp =
        if async_interrupt_callback x.cbRes x.abort ≠ 0 then
          some (AVERROR_EXIT, lp)
        else if x.completed then
          some (x.ret, if 0 ≤ x.ret then x.ret.toNat else lp)
        else seekWaitLoop (xs ++ ob :: rest) lp := rfl
    rw [e, if_neg (by simp [hx.1]), if_neg (by simp [hx.2])]
    exact ih ob rest lp (fun y hy => hpre y (List.mem_cons_of_mem x hy)) hint hcmp

/-- A forward target strictly inside the buffered-plus-threshold window is
classified as a fast seek discarding `target - logical_pos` bytes. -/
theorem classify_fast (lp lsz fifoSize : Nat) (target : Int)
    (hlow : (lp : Int) < target)
    (hhigh : target < (lp : Int) + fifoSize + SHORT_SEEK_THRESHOLD) :
    async_seek_classify lp lsz fifoSize target SEEK_SET =
      .fast (target - (lp : Int)).toNat := by
  simp only [async_seek_classify, SEEK_SET, SEEK_CUR, AVSEEK_SIZE]
  rw [if_pos (Or.inr trivial : (0 : Nat) = 1 ∨ True)]
  rw [show (if (0 : Nat) = 1 then target + (lp : Int) else target) = target from
    if_neg (by decide)]
  rw [if_neg (show ¬ target < 0 by omega),
    if_neg (show ¬ target = (lp : Int) by omega),
    if_pos (⟨hlow, hhigh⟩ :
      (lp : Int) < target ∧ target < (lp : Int) + fifoSize + SHORT_SEEK_THRESHOLD)]
  rw [if_neg (show ¬ (0 : Nat) = 65536 by decide)]

/-- Unfolding async_seek when the classification is the fast path. -/
theorem async_seek_fast_eq (obs : List Obs) (sObs : List SlowObs) (lp lsz : Nat)
    (fifo : List Nat) (pos : Int) (whence : Nat) (d : Nat)
    (hcls : async_seek_classify lp lsz fifo.length pos whence = .fast d) :
    async_seek obs sObs lp lsz fifo pos whence =
      (match readLoop obs fifo lp d d true 0 [] with
       | none => none
       | some r => some ⟨(r.logical_pos : Int), r.logical_pos, r.fifo, none⟩) := by
  unfold async_seek
  rw [hcls]

/-- Unfolding async_seek when the classification is the slow path. -/
theorem async_seek_slow_eq (obs : List Obs) (sObs : List SlowObs) (lp lsz : Nat)
    (fifo : List Nat) (pos : Int) (whence : Nat) (target : Nat)
    (hcls : async_seek_classify lp lsz fifo.length pos whence = .slow target) :
    async_seek obs sObs lp lsz fifo pos whence =
      (match seekWaitLoop sObs lp with
       | none => none
       | some rl => some ⟨rl.1, rl.2, fifo, some target⟩) := by
  unfold async_seek
  rw [hcls]

/-- C1, counterexample.  The claim says the cancellation predicate returns
true whenever the external interrupt callback reports nonzero or
`abort_request` is 1.  The code disagrees at both concrete states: with the
external callback reporting 1 and `abort_request = 0` the predicate returns
0, and with the callback reporting 0 and `abort_request = 1` it also
returns 0 (the early `if (!ret) return ret;` fires). -/
theorem claim_C1_or_semantics_counterexample :
    async_interrupt_callback (some 1) 0 = 0 ∧
    async_interrupt_callback (some 0) 1 = 0 := by
  constructor <;> decide

/-- C1, amended.  The cancellation predicate `async_interrupt_callback`
signals cancellation (returns nonzero) exactly when `abort_request` is
nonzero and, in case an external callback is installed, that callback also
reports nonzero; when the installed callback reports 0 (or no callback is
installed and `abort_request` is 0) it returns 0. -/
theorem claim_C1_interrupt_amended (cb : Option Int) (ab : Int) :
    async_interrupt_callback cb ab ≠ 0 ↔
      (ab ≠ 0 ∧ ∀ r, cb = some r → r ≠ 0) := by
  cases cb with
  | none => simp [async_interrupt_callback]
  | some r =>
    by_cases hr : r = 0
    · subst hr
      simp [async_interrupt_callback]
    · simp [async_interrupt_callback, hr]

/-- C1 witness: the amended characterization applied at a concrete state
(no external callback installed, abort_request = 1: cancellation). -/
theorem claim_C1_interrupt_amended_witness :
    async_interrupt_callback none 1 ≠ 0 :=
  (claim_C1_interrupt_amended none 1).mpr
    ⟨by decide, fun r h => Option.noConfusion h⟩

/-- C2, evaluation at the failing input.  When the wrapped source's size is
unknown (`ffurl_size` returns a negative error such as -38), the open-time
store into the unsigned `size_t` field `logical_size` yields `2^64 - 38`.
A seek far beyond any buffered window (target 10485760 = 10 MiB, from
position 0 with an empty buffer) is then classified as a slow seek and a
slow-path seek request is posted (`posted = some target`), instead of
returning the invalid-argument error the claim requires. -/
theorem claim_C2_unknown_size_posts_slow_seek :
    storeLogicalSize (-38) = 2 ^ 64 - 38 ∧
    async_seek_classify 0 (storeLogicalSize (-38)) 0 10485760 SEEK_SET =
      .slow 10485760 ∧
    async_seek [] [⟨none, 0, true, 10485760⟩] 0 (storeLogicalSize (-38)) []
      10485760 SEEK_SET = some ⟨10485760, 10485760, [], some 10485760⟩ := by
  refine ⟨by decide, by decide, ?_⟩
  decide

/-- C3, counterexample.  A complete-mode read of 2 bytes that drains 1
buffered byte in its first iteration and then observes cancellation
(`abort_request = 1`) at the top of its second iteration returns the
aborted sentinel AVERROR_EXIT, discarding the already-delivered count 1 —
the claim says it should return the positive already-read count instead. -/
theorem claim_C3_cancel_counterexample :
    async_read_internal [⟨none, 0, [], false⟩, ⟨none, 1, [], false⟩] [7] 0 2
      true = some ⟨AVERROR_EXIT, 1, [], [7], .interrupted⟩ ∧
    AVERROR_EXIT ≠ 1 := by
  constructor <;> decide

/-- C3, amended.  When cancellation is observed at the top of the drain
loop the call returns the aborted sentinel unconditionally, discarding any
bytes already delivered in this call; it is only in complete-read mode that
this situation can arise, because an ordinary read (read_complete false)
returns immediately after delivering any bytes, so an ordinary read that
ends cancelled has delivered nothing. -/
theorem claim_C3_cancel_discards (ob : Obs) (rest : List Obs)
    (fifo : List Nat) (lp size toRead : Nat) (rc : Bool) (ret : Int)
    (dlv : List Nat) (h0 : ¬ toRead = 0)
    (hint : async_interrupt_callback ob.cbRes ob.abort ≠ 0) :
    readLoop (ob :: rest) fifo lp size toRead rc ret dlv =
      some ⟨AVERROR_EXIT, lp, fifo ++ ob.arrived, dlv, .interrupted⟩ ∧
    (∀ obs2 f2 l2 s2 res, async_read_internal obs2 f2 l2 s2 false = some res →
      res.cause = .interrupted → res.delivered = []) := by
  constructor
  · rw [readLoop, if_neg h0]
    simp only []
    rw [if_pos hint]
  · intro obs2 f2 l2 s2 res hrun hc
    have h := readLoop_char obs2 f2 l2 s2 0 [] res s2 false le_rfl
      (by simp) (by simp) hrun
    exact h.2.2.2.2.2.2 rfl (by rw [hc]; simp)

/-- C3 witness: the amended theorem applied at a concrete input. -/
theorem claim_C3_cancel_discards_witness :
    readLoop [⟨none, 1, [], false⟩] [5] 0 3 3 true 2 [9] =
      some ⟨AVERROR_EXIT, 0, [5], [9], .interrupted⟩ :=
  (claim_C3_cancel_discards ⟨none, 1, [], false⟩ [] [5] 0 3 3 true 2 [9]
    (by decide) (by decide)).1

/-- C4.  A seek to a target with `logical_pos < target` and
`target < logical_pos + buffered + SHORT_SEEK_THRESHOLD` takes the fast
path: it runs the internal complete discarding read for
`target - logical_pos` bytes, posts no slow-path seek request, and — when
that read runs to completion — discards exactly `target - logical_pos`
bytes, advances `logical_pos` to `target`, and returns the new
`logical_pos`. -/
theorem claim_C4_fast_seek (obs : List Obs) (sObs : List SlowObs)
    (lp lsz : Nat) (fifo : List Nat) (target : Int) (r : ReadResult)
    (hlow : (lp : Int) < target)
    (hhigh : target < (lp : Int) + fifo.length + SHORT_SEEK_THRESHOLD)
    (hread : readLoop obs fifo lp (target - (lp : Int)).toNat
      (target - (lp : Int)).toNat true 0 [] = some r)
    (hfull : r.cause = .copied) :
    async_seek obs sObs lp lsz fifo target SEEK_SET =
      some ⟨target, target.toNat, r.fifo, none⟩ ∧
    r.delivered.length = (target - (lp : Int)).toNat ∧
    r.logical_pos = target.toNat := by
  have hcls := classify_fast lp lsz fifo.length target hlow hhigh
  obtain ⟨hA, hB, _, _, hE, _, _⟩ := readLoop_char obs fifo lp
    ((target - (lp : Int)).toNat) 0 [] r ((target - (lp : Int)).toNat) true
    le_rfl (by simp) (by simp) hread
  obtain ⟨_, _, hsz⟩ := hE hfull
  have hdl : r.delivered.length = (target - (lp : Int)).toNat := hsz rfl
  simp only [List.length_nil, Nat.add_zero] at hB
  have hlp : r.logical_pos = target.toNat := by omega
  refine ⟨?_, hdl, hlp⟩
  rw [async_seek_fast_eq obs sObs lp lsz fifo target SEEK_SET _ hcls, hread]
  simp only [hlp]
  rw [show ((target.toNat : Nat) : Int) = target from Int.toNat_of_nonneg
    (by omega)]

/-- C4 witness: a concrete fast seek from position 0 to target 2 with
buffer [1,2,3]; the discarding read drains [1,2] and the seek returns 2. -/
theorem claim_C4_fast_seek_witness :
    async_seek [⟨none, 0, [], false⟩] [] 0 100 [1, 2, 3] 2 SEEK_SET =
      some ⟨2, 2, [3], none⟩ :=
  (claim_C4_fast_seek [⟨none, 0, [], false⟩] [] 0 100 [1, 2, 3] 2
    ⟨2, 2, [3], [1, 2], .copied⟩ (by decide) (by decide) (by decide)
    (by decide)).1

/-- C5.  An iteration of the worker loop that is not cancelled and finds a
pending seek request services it: the wrapped source's seek result is
recorded (on failure EOF and the error are set, on success both are
cleared), the request is marked completed with that result, the pending
flag is cleared, the ring buffer is reset to empty, the foreground is
woken, and no fill happens in that iteration (the action is
`seekServiced`, not `fill`) — so the buffer is empty after servicing. -/
theorem claim_C5_seek_service (s : AsyncState) (env : WorkerEnv)
    (hint : async_interrupt_callback env.cbRes s.abort_request = 0)
    (hreq : s.seek_request = true) :
    (env.innerSeekRet < 0 → (workerStep s env).1.io_eof_reached = true ∧
      (workerStep s env).1.io_error = env.innerSeekRet) ∧
    (0 ≤ env.innerSeekRet → (workerStep s env).1.io_eof_reached = false ∧
      (workerStep s env).1.io_error = 0) ∧
    (workerStep s env).1.seek_completed = true ∧
    (workerStep s env).1.seek_ret = env.innerSeekRet ∧
    (workerStep s env).1.seek_request = false ∧
    (workerStep s env).1.fifo = [] ∧
    (workerStep s env).2 = .seekServiced ∧
    ((workerStep s env).2).signalsMain = true := by
  by_cases hr : env.innerSeekRet < 0 <;>
    simp [workerStep, hint, hreq, hr, WorkerAct.signalsMain] <;> omega

/-- C5 witness: the theorem applied at a concrete pending-seek state. -/
theorem claim_C5_seek_service_witness :
    (workerStep ⟨true, 5, 0, false, 0, -5, true, 0, 10, [1, 2], 0⟩
      ⟨none, 7, [], none⟩).1.fifo = [] ∧
    (workerStep ⟨true, 5, 0, false, 0, -5, true, 0, 10, [1, 2], 0⟩
      ⟨none, 7, [], none⟩).1.io_eof_reached = false ∧
    (workerStep ⟨true, 5, 0, false, 0, -5, true, 0, 10, [1, 2], 0⟩
      ⟨none, 7, [], none⟩).2 = .seekServiced := by
  have h := claim_C5_seek_service ⟨true, 5, 0, false, 0, -5, true, 0, 10, [1, 2], 0⟩
    ⟨none, 7, [], none⟩ (by decide) (by decide)
  exact ⟨h.2.2.2.2.2.1, (h.2.1 (by decide)).1, h.2.2.2.2.2.2.1⟩

/-- C6.  The read return contract: a terminating `async_read_internal`
returns the aborted sentinel, the EOF sentinel, or a byte count between 0
and `size`, returning 0 only when `size = 0`; the two sentinels are
distinct negatives; `async_read` is `async_read_internal` without
complete-read mode; complete-read mode only stops at the copy break with
the full count (partial positive results come from the EOF break, and
cancellation yields the aborted sentinel); and an ordinary read may legally
return fewer bytes than requested (concrete run: 2 of 5 requested). -/
theorem claim_C6_read_contract :
    (∀ obs fifo lp size rc res,
      async_read_internal obs fifo lp size rc = some res →
      res.ret = AVERROR_EXIT ∨ res.ret = AVERROR_EOF ∨
        (0 ≤ res.ret ∧ res.ret ≤ (size : Int) ∧ (res.ret = 0 → size = 0))) ∧
    (∀ obs fifo lp size res,
      async_read_internal obs fifo lp size true = some res →
      (res.cause = .copied → res.ret = (size : Int)) ∧
      (res.cause = .interrupted → res.ret = AVERROR_EXIT)) ∧
    (∀ obs fifo lp size,
      async_read obs fifo lp size = async_read_internal obs fifo lp size false) ∧
    AVERROR_EOF ≠ AVERROR_EXIT ∧ AVERROR_EOF < 0 ∧ AVERROR_EXIT < 0 ∧
    async_read [⟨none, 0, [], false⟩] [7, 8] 0 5 =
      some ⟨2, 2, [], [7, 8], .copied⟩ := by
  refine ⟨?_, ?_, fun _ _ _ _ => rfl, by decide, by decide, by decide, by decide⟩
  · intro obs fifo lp size rc res hrun
    obtain ⟨hA, hB, hC, hD, hE, hF, hG⟩ := readLoop_char obs fifo lp size 0 []
      res size rc le_rfl (by simp) (by simp) hrun
    cases hc : res.cause with
    | interrupted => exact Or.inl (hD hc).1
    | copied =>
      obtain ⟨he1, he2, _⟩ := hE hc
      refine Or.inr (Or.inr ⟨by omega, by omega, ?_⟩)
      intro h0
      simp at he2
      omega
    | eofHit =>
      obtain ⟨hf1, hf2, hf3⟩ := hF hc
      by_cases hd : res.delivered.length = 0
      · exact Or.inr (Or.inl (hf2 hd))
      · have := hf3 (by omega)
        exact Or.inr (Or.inr ⟨by omega, by omega, by omega⟩)
    | noIter =>
      obtain ⟨ht, hdl, hrt⟩ := hC hc
      rw [hdl] at hrt
      refine Or.inr (Or.inr ⟨by simp [hrt], by simp [hrt] <;> omega, fun _ => ht⟩)
  · intro obs fifo lp size res hrun
    obtain ⟨hA, hB, hC, hD, hE, hF, hG⟩ := readLoop_char obs fifo lp size 0 []
      res size true le_rfl (by simp) (by simp) hrun
    constructor
    · intro hc
      obtain ⟨he1, _, he3⟩ := hE hc
      rw [he1, he3 rfl]
    · intro hc
      exact (hD hc).1

/-- C6 witness: the contract applied to a concrete terminating read. -/
theorem claim_C6_read_contract_witness :
    (⟨2, 2, [], [7, 8], ExitCause.copied⟩ : ReadResult).ret = AVERROR_EXIT ∨
    (⟨2, 2, [], [7, 8], ExitCause.copied⟩ : ReadResult).ret = AVERROR_EOF ∨
    (0 ≤ (⟨2, 2, [], [7, 8], ExitCause.copied⟩ : ReadResult).ret ∧
      (⟨2, 2, [], [7, 8], ExitCause.copied⟩ : ReadResult).ret ≤ (5 : Int) ∧
      ((⟨2, 2, [], [7, 8], ExitCause.copied⟩ : ReadResult).ret = 0 → 5 = 0)) :=
  claim_C6_read_contract.1 [⟨none, 0, [], false⟩] [7, 8] 0 5 false
    ⟨2, 2, [], [7, 8], .copied⟩ (by decide)

/-- C7.  EOF is sticky and surfaces correctly: (1) a worker iteration never
clears `io_eof_reached` except by servicing a seek whose source result is
non-negative; (2) a read that finds the EOF flag set with an empty buffer
(and no new bytes, no cancellation) returns the EOF sentinel immediately —
within a single observation, so it does not block — and delivers nothing;
(3) data still buffered is delivered before EOF is reported: with the EOF
flag set but bytes buffered, an ordinary read returns those bytes, not the
sentinel. -/
theorem claim_C7_eof_sticky :
    (∀ (s : AsyncState) (env : WorkerEnv), s.io_eof_reached = true →
      (workerStep s env).1.io_eof_reached = false →
      (workerStep s env).2 = .seekServiced ∧ 0 ≤ env.innerSeekRet) ∧
    (∀ (ob : Obs) (rest : List Obs) (lp size : Nat) (rc : Bool),
      0 < size → ob.arrived = [] → ob.eof = true →
      async_interrupt_callback ob.cbRes ob.abort = 0 →
      async_read_internal (ob :: rest) [] lp size rc =
        some ⟨AVERROR_EOF, lp, [], [], .eofHit⟩) ∧
    (∀ (ob : Obs) (rest : List Obs) (fifo : List Nat) (lp size : Nat),
      0 < size → 0 < fifo.length → ob.arrived = [] → ob.eof = true →
      async_interrupt_callback ob.cbRes ob.abort = 0 →
      async_read_internal (ob :: rest) fifo lp size false =
        some ⟨((min size fifo.length : Nat) : Int), lp + min size fifo.length,
          fifo.drop (min size fifo.length), fifo.take (min size fifo.length),
          .copied⟩) := by
  refine ⟨?_, ?_, ?_⟩
  · intro s env heof hnew
    by_cases hi : async_interrupt_callback env.cbRes s.abort_request ≠ 0
    · simp [workerStep, hi] at hnew
    · by_cases hs : s.seek_request
      · by_cases hr : env.innerSeekRet < 0
        · simp [workerStep, hi, hs, hr] at hnew
        · refine ⟨by simp [workerStep, hi, hs], by omega⟩
      · simp [workerStep, hi, hs, heof] at hnew
  · intro ob rest lp size rc hsz harr heof hint
    unfold async_read_internal
    rw [readLoop, if_neg (by omega)]
    simp only []
    rw [if_neg (by simp [hint])]
    simp [harr, heof]
  · intro ob rest fifo lp size hsz hf harr heof hint
    unfold async_read_internal
    rw [readLoop, if_neg (by omega)]
    simp only []
    rw [if_neg (by simp [hint])]
    have hcp : 0 < min size fifo.length := by omega
    simp only [harr, List.append_nil, List.length_append, List.length_nil,
      Nat.add_zero]
    rw [if_pos hcp]
    rw [if_pos (Or.inr trivial : size - min size fifo.length = 0 ∨ True)]
    have : ((size : Int) - ((size - min size fifo.length : Nat) : Int)) =
        ((min size fifo.length : Nat) : Int) := by omega
    rw [this]
    simp

/-- C7 witness: the three parts applied at concrete inputs. -/
theorem claim_C7_eof_sticky_witness :
    ((workerStep ⟨false, 0, 0, false, 0, -5, true, 0, 10, [], 0⟩
        ⟨none, 0, [1], none⟩).1.io_eof_reached = true) ∧
    async_read_internal [⟨none, 0, [], true⟩] [] 3 5 false =
      some ⟨AVERROR_EOF, 3, [], [], .eofHit⟩ ∧
    async_read_internal [⟨none, 0, [], true⟩] [7, 8] 0 5 false =
      some ⟨2, 2, [], [7, 8], .copied⟩ := by
  have h2 := claim_C7_eof_sticky.2.1 ⟨none, 0, [], true⟩ [] 3 5 false
    (by decide) (by decide) (by decide) (by decide)
  have h3 := claim_C7_eof_sticky.2.2 ⟨none, 0, [], true⟩ [] [7, 8] 0 5
    (by decide) (by decide) (by decide) (by decide) (by decide)
  refine ⟨by decide, h2, ?_⟩
  rw [h3]
  decide

/-- C8.  Backpressure: a worker iteration preserves the capacity bound on
the buffer, and a fill only happens with strictly positive free space and
writes at most `min 4096 available_space` bytes. -/
theorem claim_C8_backpressure :
    (∀ (s : AsyncState) (env : WorkerEnv),
      s.fifo.length ≤ BUFFER_CAPACITY →
      (workerStep s env).1.fifo.length ≤ BUFFER_CAPACITY) ∧
    (∀ (s : AsyncState) (env : WorkerEnv) (n : Nat),
      (workerStep s env).2 = .fill n →
      n ≤ min 4096 (BUFFER_CAPACITY - s.fifo.length) ∧
      0 < BUFFER_CAPACITY - s.fifo.length) := by
  have hwr : ∀ (env : WorkerEnv) (k : Nat),
      (fifo_write_from env k).1.length ≤ k := by
    intro env k
    cases hec : env.chunkErr <;>
      simp [fifo_write_from, hec, List.length_take] <;> omega
  constructor
  · intro s env hle
    by_cases hi : async_interrupt_callback env.cbRes s.abort_request ≠ 0
    · simpa [workerStep, hi] using hle
    · by_cases hs : s.seek_request
      · by_cases hr : env.innerSeekRet < 0 <;> simp [workerStep, hi, hs, hr]
      · by_cases hw : s.io_eof_reached = true ∨ BUFFER_CAPACITY - s.fifo.length = 0
        · simpa [workerStep, hi, hs, hw] using hle
        · have hfifo : (workerStep s env).1.fifo = s.fifo ++
              (fifo_write_from env
                (min 4096 (BUFFER_CAPACITY - s.fifo.length))).1 := by
            simp [workerStep, hi, hs, hw, apply_ite AsyncState.fifo]
          have hl := hwr env (min 4096 (BUFFER_CAPACITY - s.fifo.length))
          rw [hfifo, List.length_append]
          omega
  · intro s env n hact
    by_cases hi : async_interrupt_callback env.cbRes s.abort_request ≠ 0
    · simp [workerStep, hi] at hact
    · by_cases hs : s.seek_request
      · simp [workerStep, hi, hs] at hact
      · by_cases hw : s.io_eof_reached = true ∨ BUFFER_CAPACITY - s.fifo.length = 0
        · simp [workerStep, hi, hs, hw] at hact
        · have hact2 : (workerStep s env).2 = .fill
              (fifo_write_from env
                (min 4096 (BUFFER_CAPACITY - s.fifo.length))).1.length := by
            simp [workerStep, hi, hs, hw]
          rw [hact2] at hact
          injection hact with hn
          have hl := hwr env (min 4096 (BUFFER_CAPACITY - s.fifo.length))
          exact ⟨by omega, by omega⟩

/-- C8 witness: the two parts applied at a concrete fillable state. -/
theorem claim_C8_backpressure_witness :
    (workerStep ⟨false, 0, 0, false, 0, 0, false, 0, 10, [9], 0⟩
      ⟨none, 0, [1, 2, 3], none⟩).1.fifo.length ≤ BUFFER_CAPACITY ∧
    (3 ≤ min 4096 (BUFFER_CAPACITY -
      (⟨false, 0, 0, false, 0, 0, false, 0, 10, [9], 0⟩ : AsyncState).fifo.length)) := by
  constructor
  · exact claim_C8_backpressure.1 ⟨false, 0, 0, false, 0, 0, false, 0, 10, [9], 0⟩
      ⟨none, 0, [1, 2, 3], none⟩ (by decide)
  · exact (claim_C8_backpressure.2 ⟨false, 0, 0, false, 0, 0, false, 0, 10, [9], 0⟩
      ⟨none, 0, [1, 2, 3], none⟩ 3 (by decide)).1

/-- C9.  When the slow path's wait loop observes completion (after any
number of uneventful wake-ups, with no cancellation), async_seek adopts the
worker's published result as the new `logical_pos` exactly when that result
is non-negative — a negative result leaves `logical_pos` unchanged — and in
both cases returns the worker's result to the caller. -/
theorem claim_C9_slow_result (obs : List Obs) (pre rest2 : List SlowObs)
    (ob : SlowObs) (lp lsz : Nat) (fifo : List Nat) (pos : Int)
    (whence : Nat) (target : Nat)
    (hcls : async_seek_classify lp lsz fifo.length pos whence = .slow target)
    (hpre : ∀ x ∈ pre,
      async_interrupt_callback x.cbRes x.abort = 0 ∧ x.completed = false)
    (hint : async_interrupt_callback ob.cbRes ob.abort = 0)
    (hcmp : ob.completed = true) :
    async_seek obs (pre ++ ob :: rest2) lp lsz fifo pos whence =
      some ⟨ob.ret, if 0 ≤ ob.ret then ob.ret.toNat else lp, fifo,
        some target⟩ := by
  rw [async_seek_slow_eq obs (pre ++ ob :: rest2) lp lsz fifo pos whence
    target hcls, seekWaitLoop_completes pre ob rest2 lp hpre hint hcmp]

/-- C9 witness: a backward seek (slow path) whose worker result is the
negative error -5: `logical_pos` stays 7 and -5 is returned. -/
theorem claim_C9_slow_result_witness :
    async_seek [] [⟨none, 0, false, 0⟩, ⟨none, 0, true, -5⟩] 7 100 [] 2
      SEEK_SET = some ⟨-5, 7, [], some 2⟩ := by
  have h := claim_C9_slow_result [] [⟨none, 0, false, 0⟩] [] ⟨none, 0, true, -5⟩
    7 100 [] 2 SEEK_SET 2 (by decide)
    (by intro x hx; simp at hx; rw [hx]; exact ⟨rfl, rfl⟩)
    (by decide) (by decide)
  simpa using h

/-- C10.  If the fast path's internal discarding read terminates early
(cancellation or EOF before `target - logical_pos` bytes were discarded),
async_seek ignores that read's return value (which is a negative sentinel
or a short positive count) and still returns the non-negative
`logical_pos` actually reached, which is strictly less than the requested
target. -/
theorem claim_C10_fast_seek_early (obs : List Obs) (sObs : List SlowObs)
    (lp lsz : Nat) (fifo : List Nat) (target : Int) (r : ReadResult)
    (hlow : (lp : Int) < target)
    (hhigh : target < (lp : Int) + fifo.length + SHORT_SEEK_THRESHOLD)
    (hread : readLoop obs fifo lp (target - (lp : Int)).toNat
      (target - (lp : Int)).toNat true 0 [] = some r)
    (hpart : r.cause = .interrupted ∨ r.cause = .eofHit) :
    async_seek obs sObs lp lsz fifo target SEEK_SET =
      some ⟨(r.logical_pos : Int), r.logical_pos, r.fifo, none⟩ ∧
    0 ≤ ((r.logical_pos : Nat) : Int) ∧ ((r.logical_pos : Nat) : Int) < target ∧
    (r.ret = AVERROR_EXIT ∨ r.ret = AVERROR_EOF ∨ 0 < r.ret) := by
  have hcls := classify_fast lp lsz fifo.length target hlow hhigh
  obtain ⟨hA, hB, _, hD, _, hF, _⟩ := readLoop_char obs fifo lp
    ((target - (lp : Int)).toNat) 0 [] r ((target - (lp : Int)).toNat) true
    le_rfl (by simp) (by simp) hread
  simp only [List.length_nil, Nat.add_zero] at hB
  have hlt : r.delivered.length < (target - (lp : Int)).toNat := by
    rcases hpart with h | h
    · exact (hD h).2
    · exact (hF h).1
  refine ⟨?_, by omega, by omega, ?_⟩
  · rw [async_seek_fast_eq obs sObs lp lsz fifo target SEEK_SET _ hcls, hread]
  · rcases hpart with h | h
    · exact Or.inl (hD h).1
    · obtain ⟨_, hf2, hf3⟩ := hF h
      by_cases hd : r.delivered.length = 0
      · exact Or.inr (Or.inl (hf2 hd))
      · refine Or.inr (Or.inr ?_)
        rw [hf3 (by omega)]
        omega

/-- C10 witness: a fast seek from 0 towards 5 that hits EOF after
discarding the single buffered byte: the seek returns 1 (< 5), not a
sentinel. -/
theorem claim_C10_fast_seek_early_witness :
    async_seek [⟨none, 0, [], true⟩, ⟨none, 0, [], true⟩] [] 0 100 [9] 5
      SEEK_SET = some ⟨1, 1, [], none⟩ :=
  (claim_C10_fast_seek_early [⟨none, 0, [], true⟩, ⟨none, 0, [], true⟩] []
    0 100 [9] 5 ⟨1, 1, [], [9], .eofHit⟩ (by decide) (by decide) (by decide)
    (Or.inr (by decide))).1

end Async
